import Mathlib

/-!
Verification of the context-resolution and configuration-precedence
subsystem of the smallstep cli-utils repository (packages `step`,
`config` and `command`).

The Go sources are shallowly embedded: Go maps (`map[string]interface{}`,
`map[string]*Context`) become association lists with first-match lookup,
JSON values become the inductive `Jval`, the file system becomes an
explicit function from paths to `FileState`, and fallible operations
return `Except Err` or pair the mutated state with an error value.  File
writes performed by the store operations are recorded in a `World` record
(`contextsFileW`, `currentFileW`); `json.MarshalIndent` on these
string-field data types never fails, while the success of each
`ioutil.WriteFile` is an explicit `WriteEnv` input.
-/

/-- Shallow embedding of a JSON value as decoded by `json.Unmarshal` into
`map[string]interface{}` (numbers are modelled as integers; the claims do
not depend on float formatting). -/
inductive Jval where
  | str (s : String)
  | num (n : Int)
  | bool (b : Bool)
  | null
deriving DecidableEq

/-- Embedding of `fmt.Sprintf("%v", v)` used by `getConfigVars` when it
binds a configuration value to a flag. -/
def stringify : Jval → String
  | .str s => s
  | .num n => toString n
  | .bool b => if b then "true" else "false"
  | .null => "<nil>"

/-- First-match lookup in an association list; embeds Go map indexing
`m[k]` (`none` plays the role of `ok == false`). -/
def alook {α : Type} : List (String × α) → String → Option α
  | [], _ => none
  | (k', v) :: rest, k => if k' = k then some v else alook rest k

/-- Association-list update; embeds Go map assignment `m[k] = v`
(overwrites the binding when the key is present, otherwise adds it). -/
def aset {α : Type} : List (String × α) → String → α → List (String × α)
  | [], k, v => [(k, v)]
  | (k', v') :: rest, k, v =>
    if k' = k then (k, v) :: rest else (k', v') :: aset rest k v

/-- Association-list deletion; embeds Go `delete(m, k)`. -/
def adel {α : Type} (m : List (String × α)) (k : String) : List (String × α) :=
  m.filter (fun kv => !(kv.1 = k : Bool))

/-- A decoded defaults file: Go `map[string]interface{}`. -/
abbrev ConfigMap := List (String × Jval)

/-- Embedding of the merge loop of `getConfigVars` (command/command.go):
`for k, v := range authorityMap { if _, ok := profileMap[k]; !ok {
profileMap[k] = v } }; m = profileMap` — an authority-layer key is copied
into the profile map only when the profile map does not already bind it. -/
def mergeConfig (authorityMap profileMap : ConfigMap) : ConfigMap :=
  authorityMap.foldl
    (fun acc kv => if (alook acc kv.1).isSome then acc else aset acc kv.1 kv.2)
    profileMap

theorem alook_aset {α : Type} (m : List (String × α)) (k k' : String) (v : α) :
    alook (aset m k v) k' = if k = k' then some v else alook m k' := by
  induction m with
  | nil =>
    by_cases h : k = k' <;> simp [aset, alook, h]
  | cons kv rest ih =>
    obtain ⟨k0, v0⟩ := kv
    by_cases h0 : k0 = k
    · subst h0
      by_cases h : k0 = k' <;> simp [aset, alook, h]
    · by_cases h : k0 = k'
      · subst h
        have hk : ¬ k = k0 := fun he => h0 he.symm
        simp [aset, alook, h0, hk]
      · simp [aset, alook, h0, h, ih]

theorem mergeConfig_alook (authorityMap profileMap : ConfigMap) (k : String) :
    alook (mergeConfig authorityMap profileMap) k =
      match alook profileMap k with
      | some v => some v
      | none => alook authorityMap k := by
  induction authorityMap generalizing profileMap with
  | nil =>
    cases h : alook profileMap k <;> simp [mergeConfig, List.foldl, h, alook]
  | cons kv rest ih =>
    obtain ⟨k0, v0⟩ := kv
    have hstep : mergeConfig ((k0, v0) :: rest) profileMap =
        mergeConfig rest
          (if (alook profileMap k0).isSome then profileMap
           else aset profileMap k0 v0) := by
      by_cases h0 : (alook profileMap k0).isSome <;>
        simp [mergeConfig, List.foldl, h0]
    rw [hstep]
    by_cases h0 : (alook profileMap k0).isSome
    · rw [if_pos h0, ih]
      cases h : alook profileMap k with
      | some v => simp [h]
      | none =>
        have hk : ¬ k0 = k := by
          intro he
          rw [he, h] at h0
          simp at h0
        simp [h, alook, hk]
    · rw [if_neg h0, ih, alook_aset]
      by_cases hk : k0 = k
      · subst hk
        have hnone : alook profileMap k0 = none := by
          cases h : alook profileMap k0
          · rfl
          · rw [h] at h0; simp at h0
        simp [hnone, alook]
      · simp only [if_neg hk]
        cases h : alook profileMap k with
        | some v => simp [h]
        | none => simp [h, alook, hk]

theorem alook_adel {α : Type} (m : List (String × α)) (k k' : String) :
    alook (adel m k) k' = if k = k' then none else alook m k' := by
  induction m with
  | nil => by_cases h : k = k' <;> simp [adel, alook, h]
  | cons kv rest ih =>
    obtain ⟨k0, v0⟩ := kv
    by_cases h0 : k0 = k
    · subst h0
      by_cases h : k0 = k'
      · subst h
        simpa [adel, alook] using ih
      · simpa [adel, alook, h] using ih
    · by_cases h : k0 = k'
      · subst h
        have hk : ¬ k = k0 := fun he => h0 he.symm
        simp [adel, alook, h0, hk, List.filter]
      · simp only [adel, List.filter] at ih ⊢
        simp [alook, h0, h, ih]

/-- Claim C1: when both layers are present, the merged configuration maps
each key bound in the profile layer to the profile layer's value, and each
key bound only in the authority layer to the authority layer's value; the
authority layer never overrides a profile-layer key.  The second conjunct
is the spec's concrete instance: authority
`[ca-url = X, fingerprint = A]` with profile `[fingerprint = B]` merges to
`fingerprint = B`, `ca-url = X`. -/
theorem merge_profile_precedence :
    (∀ (authorityMap profileMap : ConfigMap) (k : String),
      alook (mergeConfig authorityMap profileMap) k =
        match alook profileMap k with
        | some v => some v
        | none => alook authorityMap k) ∧
    (alook (mergeConfig [("ca-url", Jval.str "X"), ("fingerprint", Jval.str "A")]
        [("fingerprint", Jval.str "B")]) "fingerprint" = some (Jval.str "B") ∧
     alook (mergeConfig [("ca-url", Jval.str "X"), ("fingerprint", Jval.str "A")]
        [("fingerprint", Jval.str "B")]) "ca-url" = some (Jval.str "X")) :=
  ⟨mergeConfig_alook, by decide, by decide⟩

/-- The attribute names that `getConfigVars` refuses to take from
defaults files (command/command.go, `attributesBannedFromConfig`). -/
def bannedKeys : List String := ["context", "profile", "authority"]

/-- The warning printed by `ui.Printf("cannot set '%s' attribute in config
files", attr)`; the quoting around the attribute name is elided. -/
def warnMsg (attr : String) : String :=
  "cannot set " ++ attr ++ " attribute in config files"

/-- Embedding of the banned-attribute loop of `getConfigVars`:
`for _, attr := range attributesBannedFromConfig { if _, ok := m[attr]; ok
{ ui.Printf(...); delete(m, attr) } }`.  Returns the stripped map together
with the list of warnings printed, in loop order. -/
def stripLoop : List String → ConfigMap → ConfigMap × List String
  | [], m => (m, [])
  | attr :: rest, m =>
    if (alook m attr).isSome then
      ((stripLoop rest (adel m attr)).1, warnMsg attr :: (stripLoop rest (adel m attr)).2)
    else stripLoop rest m

/-- Banned-attribute stripping applied to a merged configuration map. -/
def stripBanned (m : ConfigMap) : ConfigMap × List String :=
  stripLoop bannedKeys m

theorem stripLoop_alook (attrs : List String) (m : ConfigMap) (k : String) :
    alook (stripLoop attrs m).1 k = if k ∈ attrs then none else alook m k := by
  induction attrs generalizing m with
  | nil => simp [stripLoop]
  | cons a rest ih =>
    by_cases hp : (alook m a).isSome
    · simp only [stripLoop, if_pos hp]
      rw [ih, alook_adel]
      by_cases hk : k ∈ rest
      · simp [hk]
      · by_cases hak : a = k
        · simp [hak, hk]
        · have hka : ¬ k = a := fun he => hak he.symm
          have : ¬ k ∈ a :: rest := by
            simp [List.mem_cons, hk, hka]
          simp [this, hk, hak]
    · simp only [stripLoop, if_neg hp]
      rw [ih]
      by_cases hk : k ∈ rest
      · simp [hk]
      · by_cases hak : a = k
        · subst hak
          have : alook m a = none := by
            cases h : alook m a
            · rfl
            · rw [h] at hp; simp at hp
          simp [hk, this]
        · have hka : ¬ k = a := fun he => hak he.symm
          have : ¬ k ∈ a :: rest := by
            simp [List.mem_cons, hk, hka]
          simp [this, hk]

theorem stripLoop_warns (attrs : List String) (m : ConfigMap)
    (h : attrs.Nodup) :
    (stripLoop attrs m).2 =
      (attrs.filter (fun a => (alook m a).isSome)).map warnMsg := by
  induction attrs generalizing m with
  | nil => simp [stripLoop]
  | cons a rest ih =>
    rw [List.nodup_cons] at h
    by_cases hp : (alook m a).isSome
    · simp only [stripLoop, if_pos hp, List.filter_cons, hp, if_pos, List.map_cons]
      rw [ih _ h.2]
      have hfil : rest.filter (fun b => (alook (adel m a) b).isSome) =
          rest.filter (fun b => (alook m b).isSome) := by
        apply List.filter_congr
        intro b hb
        have hab : ¬ a = b := fun he => h.1 (he ▸ hb)
        simp [alook_adel, hab]
      rw [hfil]
    · have hp' : (alook m a).isSome = false := by
        simpa using hp
      simp only [stripLoop, if_neg hp, List.filter_cons, hp']
      exact ih _ h.2

/-- Claim C6: after the banned-attribute loop runs on the merged
configuration, none of the keys context, profile, authority is still
bound (so none is ever applied to a flag), and the loop prints exactly
one warning for each banned key bound in either loaded defaults file. -/
theorem banned_keys_stripped (authorityMap profileMap : ConfigMap) :
    (bannedKeys.all
      (fun a => (alook (stripBanned (mergeConfig authorityMap profileMap)).1 a).isNone))
      = true ∧
    (stripBanned (mergeConfig authorityMap profileMap)).2 =
      (bannedKeys.filter
        (fun a => (alook profileMap a).isSome || (alook authorityMap a).isSome)).map
        warnMsg := by
  constructor
  · rw [List.all_eq_true]
    intro a ha
    rw [stripBanned, stripLoop_alook]
    simp [ha]
  · rw [stripBanned, stripLoop_warns _ _ (by decide)]
    congr 1
    apply List.filter_congr
    intro b _
    rw [mergeConfig_alook]
    cases h : alook profileMap b <;> simp [h]

/-- The sentinel environment-variable value that disables configuration
and environment lookup for a flag (command/command.go `IgnoreEnvVar`). -/
def IgnoreEnvVar : String := "STEP_IGNORE_ENV_VAR"

/-- A declared cli flag: its comma-separated name (`f.GetName()`) and its
`EnvVar` field. -/
structure CliFlag where
  name : String
  envVar : String
deriving DecidableEq

/-- Embedding of the inner alias loop of `getConfigVars`
(command/command.go): `for _, name := range strings.Split(f.GetName(),
",") { name = strings.TrimSpace(name); if ctx.IsSet(name) { break }; if v,
ok := m[name]; ok { ctx.Set(name, fmt.Sprintf("%v", v)); break } }`.
`isSet` tells whether the user explicitly supplied an alias; the result is
the single `ctx.Set` call performed, if any. -/
def bindAliases (isSet : String → Bool) (m : ConfigMap) :
    List String → Option (String × String)
  | [] => none
  | n :: rest =>
    if isSet n.trim then none
    else
      match alook m n.trim with
      | some v => some (n.trim, stringify v)
      | none => bindAliases isSet m rest

/-- Embedding of the per-flag step of `getConfigVars`: a flag whose
`EnvVar` is the sentinel is skipped entirely, otherwise its name is split
on commas and the alias loop runs. -/
def bindFlag (isSet : String → Bool) (m : ConfigMap) (f : CliFlag) :
    Option (String × String) :=
  if f.envVar = IgnoreEnvVar then none
  else bindAliases isSet m (f.name.splitOn ",")

/-- Claim C3: the alias loop processes the flag's alias names trimmed of
whitespace in the listed order, and the first alias that is either
explicitly user-supplied or bound in the merged configuration decides the
outcome: a user-supplied alias stops processing with no binding (so an
explicitly set flag is never overwritten by a configuration value), and
otherwise that first configuration-bound alias is bound to the stringified
value, with later aliases never consulted. -/
theorem flag_binder_first_alias (isSet : String → Bool) (m : ConfigMap)
    (ns : List String) :
    bindAliases isSet m ns =
      match (ns.map String.trim).find? (fun a => isSet a || (alook m a).isSome) with
      | none => none
      | some a => if isSet a then none
                  else (alook m a).map (fun v => (a, stringify v)) := by
  induction ns with
  | nil => rfl
  | cons n rest ih =>
    simp only [List.map_cons]
    by_cases h1 : isSet n.trim
    · rw [List.find?_cons_of_pos _ (by simp [h1])]
      simp [bindAliases, h1]
    · cases h2 : alook m n.trim with
      | some v =>
        rw [List.find?_cons_of_pos _ (by simp [h2])]
        simp [bindAliases, h1, h2]
      | none =>
        rw [List.find?_cons_of_neg _ (by simp [h1, h2])]
        simp only [bindAliases, if_neg h1, h2]
        exact ih

/-- Embedding of `step.Context` (step/context.go): the name (assigned from
the map key), the profile and authority directory names, and the
lazily-loaded configuration. -/
structure Context where
  name : String
  profile : String
  authority : String
  config : ConfigMap
deriving DecidableEq

/-- Embedding of `step.ContextMap` (`map[string]*Context`). -/
abbrev CtxMap := List (String × Context)

/-- Errors returned by the embedded operations; each constructor stands
for one distinct error construction in the source. -/
inductive Err where
  | notFound (nm : String)
  | cannotRemoveCurrent
  | ioError
  | fileError (path : String)
  | parseError (path : String)
  | parseMapFile
  | parseCurrentFile
  | couldNotLoad (nm : String)
  | writeError
deriving DecidableEq

/-- Embedding of `step.CtxState`: the in-memory current context and the
in-memory context map (`none` models a nil Go map). -/
structure CtxState where
  current : Option Context
  contexts : Option CtxMap
deriving DecidableEq

/-- Lookup in a possibly-nil context map: `cs.contexts[name]` where a nil
map yields no entry. -/
def olookup (o : Option CtxMap) (nm : String) : Option Context :=
  match o with
  | none => none
  | some m => alook m nm

/-- `len(cs.contexts)` with `len(nil) = 0`. -/
def osize (o : Option CtxMap) : Nat :=
  match o with
  | none => 0
  | some m => m.length

/-- The values of a possibly-nil context map, in representation order
(Go map iteration order is unspecified; this fixes one refinement). -/
def ovalues (o : Option CtxMap) : List Context :=
  match o with
  | none => []
  | some m => m.map Prod.snd

/-- `delete(cs.contexts, name)` on a possibly-nil map. -/
def odelete (o : Option CtxMap) (nm : String) : CtxMap :=
  match o with
  | none => []
  | some m => adel m nm

/-- Insertion into a possibly-nil context map, embedding the nil check of
`CtxState.Add`: a nil map is replaced by a fresh singleton map. -/
def oinsert (o : Option CtxMap) (k : String) (c : Context) : CtxMap :=
  match o with
  | none => [(k, c)]
  | some m => aset m k c

/-- Embedding of `cs.current != nil && cs.current.Name == name`, the guard
of `CtxState.Remove`. -/
def currentNameIs (cs : CtxState) (nm : String) : Bool :=
  match cs.current with
  | some c => c.name = nm
  | none => false

/-- Embedding of `CtxState.Enabled` (step/context.go):
`cs.current != nil || len(cs.contexts) > 0`. -/
def CtxState.enabled (cs : CtxState) : Bool :=
  cs.current.isSome || decide (0 < osize cs.contexts)

/-- Claim C8: `Enabled()` returns true exactly when a current context is
set or the context map is non-empty. -/
theorem enabled_iff (cs : CtxState) :
    cs.enabled = true ↔ (cs.current ≠ none ∨ osize cs.contexts ≠ 0) := by
  rw [CtxState.enabled]
  cases h : cs.current with
  | none => simp [h, Option.isSome]; omega
  | some c => simp [h, Option.isSome]

/-- The persisted state touched by the store: the in-memory `CtxState`
plus the last contents written to `contexts.json` and
`current-context.json` (`none` when the operation never wrote them). -/
structure World where
  cs : CtxState
  contextsFileW : Option CtxMap
  currentFileW : Option String
deriving DecidableEq

/-- Embedding of `CtxState.Get` (step/context.go): nil map gives not-ok. -/
def getCtx (cs : CtxState) (nm : String) : Option Context :=
  olookup cs.contexts nm

/-- Outcome of the `ioutil.WriteFile` calls performed by the store
operations: one success flag per persisted file.  `json.MarshalIndent` on
these string-field structures cannot fail, so of the two error branches
guarding each persist step in the source only the write itself can take
the error path; that path is modelled here. -/
structure WriteEnv where
  contextsOk : Bool
  currentOk : Bool
deriving DecidableEq

/-- Write environment in which both persisted files are writable. -/
def envOk : WriteEnv := { contextsOk := true, currentOk := true }

/-- Write environment in which writing `contexts.json` fails. -/
def envWF : WriteEnv := { contextsOk := false, currentOk := true }

/-- Write environment in which writing `current-context.json` fails. -/
def envCF : WriteEnv := { contextsOk := true, currentOk := false }

/-- Embedding of `CtxState.SaveCurrent` (step/context.go): fails when the
name is not in the context map; otherwise attempts to overwrite the
current-context file with the given name, returning
`errs.FileError(err, CurrentContextFile())` when that write fails.  The
result pairs the state after the call with the returned error value,
since the Go methods mutate their receiver even on error paths. -/
def saveCurrent (env : WriteEnv) (w : World) (nm : String) : World × Option Err :=
  match getCtx w.cs nm with
  | none => (w, some (.notFound nm))
  | some _ =>
    if env.currentOk then ({ w with currentFileW := some nm }, none)
    else (w, some (.fileError "current-context.json"))

/-- Embedding of `CtxState.Remove` (step/context.go): not-found on a nil
map or an absent entry, refusal on the current context's name; otherwise
`delete(cs.contexts, name)` runs and the whole map is marshalled and
written to the contexts file — a failed write returns that error
(`return err`) with the entry already deleted from the in-memory map and
the file not overwritten. -/
def removeOp (env : WriteEnv) (w : World) (nm : String) : World × Option Err :=
  match w.cs.contexts with
  | none => (w, some (.notFound nm))
  | some m =>
    match alook m nm with
    | none => (w, some (.notFound nm))
    | some _ =>
      if currentNameIs w.cs nm then (w, some .cannotRemoveCurrent)
      else if env.contextsOk then
        ({ cs := { current := w.cs.current, contexts := some (adel m nm) },
           contextsFileW := some (adel m nm),
           currentFileW := w.currentFileW }, none)
      else
        ({ cs := { current := w.cs.current, contexts := some (adel m nm) },
           contextsFileW := w.contextsFileW,
           currentFileW := w.currentFileW }, some .writeError)

/-- Embedding of `CtxState.Add` (step/context.go): insert or overwrite the
in-memory entry (creating the map when it was nil), then marshal and write
the whole map to the contexts file — a failed write returns that error
(`return err`) with the entry already inserted and nothing persisted.
After a successful map write, when no current context is set the new
context's name is additionally persisted as current via `SaveCurrent`. -/
def addOp (env : WriteEnv) (w : World) (ctx : Context) : World × Option Err :=
  let mNew := oinsert w.cs.contexts ctx.name ctx
  let w1 : World := { cs := { current := w.cs.current, contexts := some mNew },
                      contextsFileW := w.contextsFileW,
                      currentFileW := w.currentFileW }
  if env.contextsOk then
    let w2 : World := { w1 with contextsFileW := some mNew }
    match w2.cs.current with
    | none => saveCurrent env w2 ctx.name
    | some _ => (w2, none)
  else (w1, some .writeError)

theorem alook_aset_self {α : Type} (m : List (String × α)) (k : String) (v : α) :
    alook (aset m k v) k = some v := by
  rw [alook_aset]
  simp

/-- Concrete context used by the witnesses. -/
def ctxA : Context := { name := "a", profile := "p", authority := "ca", config := [] }

/-- Concrete world used by the `Remove` witnesses: one stored context
named a, no current context selected. -/
def w0 : World :=
  { cs := { current := none, contexts := some [("a", ctxA)] },
    contextsFileW := none, currentFileW := none }

/-- Concrete world with no contexts and no current context. -/
def wEmpty : World :=
  { cs := { current := none, contexts := none },
    contextsFileW := none, currentFileW := none }

/-- Counterexample to claim C2 as stated: with the context a present in
the map and not current, a failed contexts.json write makes `Remove`
return an error even though neither of the claim's two error conditions
holds — and at that point the entry is already deleted from the in-memory
map while the file is not re-persisted, so the map is also not unchanged
on this error. -/
theorem remove_write_failure_errors :
    olookup w0.cs.contexts "a" = some ctxA ∧
    currentNameIs w0.cs "a" = false ∧
    (removeOp envWF w0 "a").2 = some Err.writeError ∧
    (removeOp envWF w0 "a").1.cs.contexts = some [] ∧
    (removeOp envWF w0 "a").1.contextsFileW = w0.contextsFileW :=
  ⟨rfl, rfl, rfl, rfl, rfl⟩

/-- Claim C2 (amended): `Remove(name)` returns an error exactly when the
map has no entry for the name, the name is the current context's name, or
the re-persist write fails; in the first two cases the state is completely
unchanged; otherwise the entry is deleted from the in-memory map, the
current pointer and current-context file are untouched, and the shrunken
map is re-persisted exactly when the write succeeds (a failed write
returns the write error with the entry already deleted and the contexts
file not overwritten). -/
theorem remove_amended_spec (env : WriteEnv) (w : World) (nm : String) :
    ((removeOp env w nm).2.isSome = true ↔
      (olookup w.cs.contexts nm = none ∨ currentNameIs w.cs nm = true ∨
        env.contextsOk = false)) ∧
    ((olookup w.cs.contexts nm = none ∨ currentNameIs w.cs nm = true) →
      (removeOp env w nm).1 = w) ∧
    (∀ m, w.cs.contexts = some m → (alook m nm).isSome = true →
      currentNameIs w.cs nm = false →
      (removeOp env w nm).1.cs.current = w.cs.current ∧
      (removeOp env w nm).1.cs.contexts = some (adel m nm) ∧
      (removeOp env w nm).1.currentFileW = w.currentFileW ∧
      (removeOp env w nm).1.contextsFileW =
        (if env.contextsOk then some (adel m nm) else w.contextsFileW) ∧
      (removeOp env w nm).2 =
        (if env.contextsOk then none else some Err.writeError)) := by
  refine ⟨?_, ?_, ?_⟩
  · cases hc : w.cs.contexts with
    | none => simp [removeOp, hc, olookup]
    | some m =>
      cases hl : alook m nm with
      | none => simp [removeOp, hc, hl, olookup]
      | some c =>
        by_cases hcur : currentNameIs w.cs nm = true
        · simp [removeOp, hc, hl, hcur, olookup]
        · cases hok : env.contextsOk <;>
            simp [removeOp, hc, hl, hcur, hok, olookup]
  · intro h
    cases hc : w.cs.contexts with
    | none => simp [removeOp, hc]
    | some m =>
      cases hl : alook m nm with
      | none => simp [removeOp, hc, hl]
      | some c =>
        have hcur : currentNameIs w.cs nm = true := by
          rcases h with h | h
          · rw [olookup.eq_def] at h
            rw [hc] at h
            simp only [hl] at h
            exact absurd h (by simp)
          · exact h
        simp [removeOp, hc, hl, hcur]
  · intro m hm hl hcur
    have hsome : ∃ c, alook m nm = some c := by
      cases h : alook m nm
      · rw [h] at hl; simp at hl
      · exact ⟨_, rfl⟩
    obtain ⟨c, hcc⟩ := hsome
    have hcur' : ¬ currentNameIs w.cs nm = true := by simp [hcur]
    cases hok : env.contextsOk <;>
      simp [removeOp, hm, hcc, hcur', hok]

/-- Witness for claim C2 (amended): with one stored context a and no
current context, removing the absent name b leaves the world unchanged,
and removing a with the write succeeding deletes the entry, re-persists
the shrunken map and returns no error. -/
theorem remove_amended_spec_witness :
    (removeOp envOk w0 "b").1 = w0 ∧
    ((removeOp envOk w0 "a").1.cs.current = w0.cs.current ∧
     (removeOp envOk w0 "a").1.cs.contexts = some (adel [("a", ctxA)] "a") ∧
     (removeOp envOk w0 "a").1.currentFileW = w0.currentFileW ∧
     (removeOp envOk w0 "a").1.contextsFileW =
       (if envOk.contextsOk then some (adel [("a", ctxA)] "a")
        else w0.contextsFileW) ∧
     (removeOp envOk w0 "a").2 =
       (if envOk.contextsOk then none else some Err.writeError)) :=
  ⟨(remove_amended_spec envOk w0 "b").2.1 (Or.inl rfl),
   (remove_amended_spec envOk w0 "a").2.2 [("a", ctxA)] rfl rfl rfl⟩

/-- Counterexample to claim C7 as stated: when the contexts.json write
fails, `Add` returns the write error without re-persisting the map and
without persisting the new context as current although no current context
was selected — while the entry is already inserted in the in-memory
map. -/
theorem add_write_failure_counterexample :
    wEmpty.cs.current = none ∧
    (addOp envWF wEmpty ctxA).2 = some Err.writeError ∧
    (addOp envWF wEmpty ctxA).1.cs.contexts = some [("a", ctxA)] ∧
    (addOp envWF wEmpty ctxA).1.contextsFileW = none ∧
    (addOp envWF wEmpty ctxA).1.currentFileW = none :=
  ⟨rfl, rfl, rfl, rfl, rfl⟩

/-- Claim C7 (amended): `Add(ctx)` always inserts or overwrites the
in-memory entry keyed by the context's name and leaves the in-memory
current pointer unchanged.  When the map write fails, that write error is
returned and neither file is written; when it succeeds the full map is
re-persisted and, exactly when no current context was selected, the new
context's name is additionally written to the current-context file — a
failure of that second write is returned as a file error naming the
current-context file, with the map already re-persisted. -/
theorem add_amended_spec (env : WriteEnv) (w : World) (ctx : Context) :
    ((addOp env w ctx).1.cs.current = w.cs.current) ∧
    ((addOp env w ctx).1.cs.contexts = some (oinsert w.cs.contexts ctx.name ctx)) ∧
    (env.contextsOk = false →
      (addOp env w ctx).1.contextsFileW = w.contextsFileW ∧
      (addOp env w ctx).1.currentFileW = w.currentFileW ∧
      (addOp env w ctx).2 = some Err.writeError) ∧
    (env.contextsOk = true →
      (addOp env w ctx).1.contextsFileW = some (oinsert w.cs.contexts ctx.name ctx) ∧
      (addOp env w ctx).1.currentFileW =
        (if w.cs.current.isNone && env.currentOk then some ctx.name
         else w.currentFileW) ∧
      (addOp env w ctx).2 =
        (if w.cs.current.isNone && !env.currentOk
         then some (Err.fileError "current-context.json") else none)) := by
  have hlook : olookup (some (oinsert w.cs.contexts ctx.name ctx)) ctx.name
      = some ctx := by
    cases ho : w.cs.contexts with
    | none => simp [olookup, oinsert, alook]
    | some m => simp [olookup, oinsert, alook_aset_self]
  cases hok : env.contextsOk with
  | false =>
    cases hc : w.cs.current <;> simp [addOp, hok, hc]
  | true =>
    cases hc : w.cs.current with
    | some c => simp [addOp, hok, hc]
    | none =>
      cases hcur : env.currentOk <;>
        simp [addOp, hok, hc, hcur, saveCurrent, getCtx, hlook]

/-- Witness for claim C7 (amended): adding the context a to the empty
world with the map write failing persists nothing and returns the write
error; with all writes succeeding the map is re-persisted and a is
promoted to current; with only the current-context write failing the map
is re-persisted and the file error is returned. -/
theorem add_amended_spec_witness :
    ((addOp envWF wEmpty ctxA).1.contextsFileW = wEmpty.contextsFileW ∧
     (addOp envWF wEmpty ctxA).1.currentFileW = wEmpty.currentFileW ∧
     (addOp envWF wEmpty ctxA).2 = some Err.writeError) ∧
    ((addOp envOk wEmpty ctxA).1.contextsFileW
        = some (oinsert wEmpty.cs.contexts ctxA.name ctxA) ∧
     (addOp envOk wEmpty ctxA).1.currentFileW =
       (if wEmpty.cs.current.isNone && envOk.currentOk then some ctxA.name
        else wEmpty.currentFileW) ∧
     (addOp envOk wEmpty ctxA).2 =
       (if wEmpty.cs.current.isNone && !envOk.currentOk
        then some (Err.fileError "current-context.json") else none)) ∧
    ((addOp envCF wEmpty ctxA).1.contextsFileW
        = some (oinsert wEmpty.cs.contexts ctxA.name ctxA) ∧
     (addOp envCF wEmpty ctxA).1.currentFileW =
       (if wEmpty.cs.current.isNone && envCF.currentOk then some ctxA.name
        else wEmpty.currentFileW) ∧
     (addOp envCF wEmpty ctxA).2 =
       (if wEmpty.cs.current.isNone && !envCF.currentOk
        then some (Err.fileError "current-context.json") else none)) :=
  ⟨(add_amended_spec envWF wEmpty ctxA).2.2.1 rfl,
   (add_amended_spec envOk wEmpty ctxA).2.2.2 rfl,
   (add_amended_spec envCF wEmpty ctxA).2.2.2 rfl⟩

/-- Embedding of `CtxState.List` (step/context.go): `l := make([]*Context,
len(cs.contexts))` followed by `for _, v := range cs.contexts { l =
append(l, v) }` — the slice is allocated with length n (n nil pointers,
modelled as `none`) and the contexts are appended after them. -/
def CtxState.list (cs : CtxState) : List (Option Context) :=
  (ovalues cs.contexts).foldl (fun l v => l ++ [some v])
    (List.replicate (osize cs.contexts) none)

theorem foldl_append_some (init : List (Option Context)) (l : List Context) :
    l.foldl (fun acc v => acc ++ [some v]) init = init ++ l.map some := by
  induction l generalizing init with
  | nil => simp
  | cons c rest ih => simp [List.foldl, ih]

theorem ovalues_length (o : Option CtxMap) : (ovalues o).length = osize o := by
  cases o <;> simp [ovalues, osize]

/-- Claim C10: for a context map with n entries, `List` returns a slice of
length 2n whose first n elements are nil and whose last n elements are the
contexts of the map. -/
theorem list_leading_nils (cs : CtxState) :
    (cs.list).length = 2 * osize cs.contexts ∧
    (cs.list).take (osize cs.contexts) = List.replicate (osize cs.contexts) none ∧
    (cs.list).drop (osize cs.contexts) = (ovalues cs.contexts).map some := by
  have hdef : cs.list =
      List.replicate (osize cs.contexts) none ++ (ovalues cs.contexts).map some :=
    foldl_append_some _ _
  refine ⟨?_, ?_, ?_⟩
  · rw [hdef]
    simp [ovalues_length]
    omega
  · rw [hdef]
    simp
  · rw [hdef]
    simp

/-- The state of one file as seen by `os.Stat`, `ioutil.ReadFile` and
`json.Unmarshal`: absent, stat error other than not-exist, read error,
malformed JSON, or well-formed JSON content. -/
inductive FileState where
  | absent
  | statError
  | readError
  | malformed
  | json (m : ConfigMap)
deriving DecidableEq

/-- `Context.Path()` (step/context.go): `filepath.Join(BasePath(),
"authorities", c.Authority)`. -/
def Context.path (c : Context) (base : String) : String :=
  base ++ "/authorities/" ++ c.authority

/-- `Context.ProfilePath()` (step/context.go). -/
def Context.profilePath (c : Context) (base : String) : String :=
  base ++ "/profiles/" ++ c.profile

/-- `Context.DefaultsFile()` (step/context.go). -/
def Context.defaultsFile (c : Context) (base : String) : String :=
  c.path base ++ "/config/defaults.json"

/-- `Context.ProfileDefaultsFile()` (step/context.go). -/
def Context.profileDefaultsFile (c : Context) (base : String) : String :=
  c.profilePath base ++ "/config/defaults.json"

/-- `for k, v := range values { c.Config[k] = v }`: merge a decoded file
into the accumulated configuration, overwriting existing keys. -/
def asetAll (m values : ConfigMap) : ConfigMap :=
  values.foldl (fun acc kv => aset acc kv.1 kv.2) m

/-- Embedding of the file loop of `Context.Load` (step/context.go lines
46-65): for each file in order, a not-exist stat result executes `break`
(ending the whole loop without error, so remaining files are skipped), any
other stat error is returned as-is, a read error becomes a file error, a
JSON error becomes a parse error naming the file, and otherwise the
decoded values are merged into the configuration. -/
def loadLoop (fs : String → FileState) : List String → ConfigMap →
    Except Err ConfigMap
  | [], cfg => .ok cfg
  | f :: rest, cfg =>
    match fs f with
    | .absent => .ok cfg
    | .statError => .error .ioError
    | .readError => .error (.fileError f)
    | .malformed => .error (.parseError f)
    | .json values => loadLoop fs rest (asetAll cfg values)

/-- Embedding of `Context.Load` (step/context.go lines 45-65): the loop
over `[c.DefaultsFile(), c.ProfileDefaultsFile()]`.  The trailing
banned-attribute block of that revision (lines 67-77) deletes from a
variable `m` that does not exist at that scope; the compiling variant of
that block, which operates on the merged map of `getConfigVars`, is
modelled separately as `stripBanned`. -/
def Context.load (c : Context) (fs : String → FileState) (base : String) :
    Except Err ConfigMap :=
  loadLoop fs [c.defaultsFile base, c.profileDefaultsFile base] c.config

/-- File system for the C4 counterexample: the authority-level defaults
file is missing while the profile-level defaults file exists and parses. -/
def fsA : String → FileState := fun f =>
  if f = ctxA.profileDefaultsFile "/s" then .json [("k", Jval.str "v")]
  else .absent

/-- Counterexample to claim C4 as stated: with the authority-level
defaults file missing and the profile-level defaults file present, `Load`
returns success (the untouched configuration), not an error — a missing
authority-level defaults file is tolerated, not reported. -/
theorem load_missing_authority_not_error :
    fsA (ctxA.defaultsFile "/s") = FileState.absent ∧
    fsA (ctxA.profileDefaultsFile "/s") = FileState.json [("k", Jval.str "v")] ∧
    Context.load ctxA fsA "/s" = .ok ctxA.config :=
  ⟨rfl, rfl, rfl⟩

/-- Claim C4 (amended): `Load` tolerates a missing defaults file at either
layer.  A missing authority-level file ends loading immediately with
success, without consulting the profile layer; with the authority file
loaded, a missing profile-level file is tolerated; malformed JSON at
either layer is an error that names the offending file. -/
theorem load_missing_files_amended (fs : String → FileState) (base : String)
    (c : Context) :
    (fs (c.defaultsFile base) = .absent →
      c.load fs base = .ok c.config) ∧
    (fs (c.defaultsFile base) = .malformed →
      c.load fs base = .error (.parseError (c.defaultsFile base))) ∧
    (∀ av, fs (c.defaultsFile base) = .json av →
      fs (c.profileDefaultsFile base) = .absent →
      c.load fs base = .ok (asetAll c.config av)) ∧
    (∀ av, fs (c.defaultsFile base) = .json av →
      fs (c.profileDefaultsFile base) = .malformed →
      c.load fs base = .error (.parseError (c.profileDefaultsFile base))) := by
  refine ⟨?_, ?_, ?_, ?_⟩
  · intro h; simp [Context.load, loadLoop, h]
  · intro h; simp [Context.load, loadLoop, h]
  · intro av h1 h2; simp [Context.load, loadLoop, h1, h2]
  · intro av h1 h2; simp [Context.load, loadLoop, h1, h2]

/-- File system with a malformed authority-level defaults file. -/
def fsM : String → FileState := fun f =>
  if f = ctxA.defaultsFile "/s" then .malformed else .absent

/-- File system with a parsed authority-level file and no profile file. -/
def fsJP : String → FileState := fun f =>
  if f = ctxA.defaultsFile "/s" then .json [("k", Jval.str "v")] else .absent

/-- File system with a parsed authority-level file and a malformed
profile-level file. -/
def fsJM : String → FileState := fun f =>
  if f = ctxA.defaultsFile "/s" then .json []
  else if f = ctxA.profileDefaultsFile "/s" then .malformed
  else .absent

/-- Witness for claim C4 (amended), instantiating each conjunct at a
concrete file system. -/
theorem load_missing_files_amended_witness :
    Context.load ctxA fsA "/s" = .ok ctxA.config ∧
    Context.load ctxA fsM "/s" = .error (.parseError (ctxA.defaultsFile "/s")) ∧
    Context.load ctxA fsJP "/s" = .ok (asetAll ctxA.config [("k", Jval.str "v")]) ∧
    Context.load ctxA fsJM "/s" = .error (.parseError (ctxA.profileDefaultsFile "/s")) :=
  ⟨(load_missing_files_amended fsA "/s" ctxA).1 rfl,
   (load_missing_files_amended fsM "/s" ctxA).2.1 rfl,
   (load_missing_files_amended fsJP "/s" ctxA).2.2.1 _ rfl rfl,
   (load_missing_files_amended fsJM "/s" ctxA).2.2.2 _ rfl rfl⟩

/-- The state of `contexts.json` as seen by `initMap`. -/
inductive MapFile where
  | absent
  | statError
  | readError
  | malformed
  | json (m : CtxMap)
deriving DecidableEq

/-- The state of `current-context.json` as seen by `initCurrent`. -/
inductive CurFile where
  | absent
  | statError
  | readError
  | malformed
  | json (nm : String)
deriving DecidableEq

/-- `for k, ctx := range cs.contexts { ctx.Name = k }`: each loaded
context's name is assigned from its map key. -/
def assignNames (m : CtxMap) : CtxMap :=
  m.map (fun kv => (kv.1, { kv.2 with name := kv.1 }))

/-- Embedding of `CtxState.initMap` (step/context.go): an absent file
leaves the state untouched, other stat errors and read errors propagate,
malformed JSON is a map-unmarshal error, and otherwise the decoded map is
installed with names assigned from the keys. -/
def initMap (f : MapFile) (cs : CtxState) : Except Err CtxState :=
  match f with
  | .absent => .ok cs
  | .statError => .error .ioError
  | .readError => .error (.fileError "contexts.json")
  | .malformed => .error .parseMapFile
  | .json m => .ok { cs with contexts := some (assignNames m) }

/-- Embedding of `CtxState.Set` (step/context.go): looks the name up in
the context map and errors when it is absent, otherwise installs the found
context as current. -/
def CtxState.set (cs : CtxState) (nm : String) : Except Err CtxState :=
  match olookup cs.contexts nm with
  | none => .error (.couldNotLoad nm)
  | some c => .ok { cs with current := some c }

/-- Embedding of `CtxState.initCurrent` (step/context.go): an absent file
leaves the state untouched, other stat errors and read errors propagate,
malformed JSON is a current-context-unmarshal error, and otherwise the
stored name is resolved with `cs.Set`. -/
def initCurrent (f : CurFile) (cs : CtxState) : Except Err CtxState :=
  match f with
  | .absent => .ok cs
  | .statError => .error .ioError
  | .readError => .error (.fileError "current-context.json")
  | .malformed => .error .parseCurrentFile
  | .json nm => cs.set nm

/-- Embedding of `CtxState.Init` (step/context.go): `initMap` then
`initCurrent`. -/
def ctxInit (mf : MapFile) (cf : CurFile) (cs : CtxState) :
    Except Err CtxState :=
  match initMap mf cs with
  | .error e => .error e
  | .ok cs1 => initCurrent cf cs1

/-- Claim C5: whenever the map file loads (so the context map is
well-defined) and the current-context file exists and names a context that
the loaded map does not contain, `Init` returns an error — the dangling
current-context pointer is reported, not silently ignored. -/
theorem init_dangling_current_errors (mf : MapFile) (cf : CurFile)
    (cs cs1 : CtxState) (nm : String)
    (h1 : initMap mf cs = .ok cs1)
    (h2 : cf = CurFile.json nm)
    (h3 : olookup cs1.contexts nm = none) :
    ctxInit mf cf cs = .error (.couldNotLoad nm) := by
  rw [ctxInit, h1, h2]
  simp [initCurrent, CtxState.set, h3]

/-- Witness for claim C5: an empty context map with a current-context file
naming x makes `Init` fail. -/
theorem init_dangling_current_errors_witness :
    ctxInit (MapFile.json []) (CurFile.json "x")
      { current := none, contexts := none } = .error (.couldNotLoad "x") :=
  init_dangling_current_errors (MapFile.json []) (CurFile.json "x")
    { current := none, contexts := none }
    { current := none, contexts := some [] } "x" rfl rfl rfl

/-- Bytewise (code-point) lexicographic order on the character lists of
two strings. -/
def strLeAux : List Char → List Char → Bool
  | [], _ => true
  | _ :: _, [] => false
  | a :: as, b :: bs =>
    if a.toNat < b.toNat then true
    else if b.toNat < a.toNat then false
    else strLeAux as bs

/-- Lexicographic order on strings, computable by the kernel. -/
def strLe (a b : String) : Bool :=
  strLeAux a.data b.data

theorem strLeAux_total (as bs : List Char) :
    strLeAux as bs = true ∨ strLeAux bs as = true := by
  induction as generalizing bs with
  | nil => left; rfl
  | cons a as ih =>
    cases bs with
    | nil => right; rfl
    | cons b bs =>
      by_cases h1 : a.toNat < b.toNat
      · left; simp [strLeAux, h1]
      · by_cases h2 : b.toNat < a.toNat
        · right; simp [strLeAux, h2]
        · rcases ih bs with h | h
          · left; simp [strLeAux, h1, h2, h]
          · right; simp [strLeAux, h1, h2, h]

theorem strLeAux_trans (as bs cs : List Char)
    (h1 : strLeAux as bs = true) (h2 : strLeAux bs cs = true) :
    strLeAux as cs = true := by
  induction as generalizing bs cs with
  | nil => rfl
  | cons a as ih =>
    cases bs with
    | nil => simp [strLeAux] at h1
    | cons b bs =>
      cases cs with
      | nil => simp [strLeAux] at h2
      | cons c cs =>
        simp only [strLeAux] at h1 h2 ⊢
        by_cases hab : a.toNat < b.toNat
        · by_cases hbc : b.toNat < c.toNat
          · have : a.toNat < c.toNat := Nat.lt_trans hab hbc
            simp [this]
          · by_cases hcb : c.toNat < b.toNat
            · simp [hbc, hcb] at h2
            · have hbc' : b.toNat = c.toNat := Nat.le_antisymm
                (Nat.le_of_not_lt hcb) (Nat.le_of_not_lt hbc)
              have : a.toNat < c.toNat := hbc' ▸ hab
              simp [this]
        · by_cases hba : b.toNat < a.toNat
          · simp [hab, hba] at h1
          · have hab' : a.toNat = b.toNat := Nat.le_antisymm
              (Nat.le_of_not_lt hba) (Nat.le_of_not_lt hab)
            by_cases hbc : b.toNat < c.toNat
            · have : a.toNat < c.toNat := hab' ▸ hbc
              simp [this]
            · by_cases hcb : c.toNat < b.toNat
              · simp [hbc, hcb] at h2
              · have hbc' : b.toNat = c.toNat := Nat.le_antisymm
                  (Nat.le_of_not_lt hcb) (Nat.le_of_not_lt hbc)
                have hac : ¬ a.toNat < c.toNat := by omega
                have hca : ¬ c.toNat < a.toNat := by omega
                simp only [hab, hba, if_false, if_neg] at h1
                simp only [hbc, hcb, if_false, if_neg] at h2
                simp only [hac, hca, if_false, if_neg]
                exact ih bs cs h1 h2

/-- The ordering used by the spec-modelled `ListAlphabetical`: context a
precedes context b when a's name is lexicographically at most b's name. -/
def nameLe (a b : Context) : Prop := strLe a.name b.name = true

instance : DecidableRel nameLe := fun a b =>
  inferInstanceAs (Decidable (strLe a.name b.name = true))

instance : IsTotal Context nameLe :=
  ⟨fun a b => strLeAux_total a.name.data b.name.data⟩

instance : IsTrans Context nameLe :=
  ⟨fun a b c h1 h2 => strLeAux_trans a.name.data b.name.data c.name.data h1 h2⟩

/-- Modelled from the spec: `ListAlphabetical` is absent from the provided
sources (only its test `TestCtxState_ListAlphabetical` is present); the
spec says it returns all contexts ordered by name ascending, so it is
modelled as an insertion sort of the context-map values by name. -/
def CtxState.listAlphabetical (cs : CtxState) : List Context :=
  (ovalues cs.contexts).insertionSort nameLe

/-- Contexts named A, B and C used by the C9 example. -/
def ctxNamedA : Context := { name := "A", profile := "p", authority := "x", config := [] }

/-- Context named B for the C9 example. -/
def ctxNamedB : Context := { name := "B", profile := "p", authority := "x", config := [] }

/-- Context named C for the C9 example. -/
def ctxNamedC : Context := { name := "C", profile := "p", authority := "x", config := [] }

/-- Claim C9: `ListAlphabetical` returns all the contexts of the map
(a permutation of its values) sorted by name ascending; on the map with
keys 1, 2, 3 whose contexts are named C, B, A it returns the contexts in
name order A, B, C. -/
theorem list_alphabetical_sorted :
    (∀ cs : CtxState,
      (cs.listAlphabetical).Sorted nameLe ∧
      (cs.listAlphabetical).Perm (ovalues cs.contexts)) ∧
    CtxState.listAlphabetical
      { current := none,
        contexts := some [("1", ctxNamedC), ("2", ctxNamedB), ("3", ctxNamedA)] }
      = [ctxNamedA, ctxNamedB, ctxNamedC] :=
  ⟨fun cs => ⟨List.sorted_insertionSort nameLe _, List.perm_insertionSort nameLe _⟩,
   by decide⟩

/-- Witness for claim C8: a state with one stored context and no current
context is enabled. -/
theorem enabled_iff_witness :
    CtxState.enabled { current := none, contexts := some [("a", ctxA)] } = true :=
  (enabled_iff _).mpr (Or.inr (by decide))
